import Mathlib

/-!
Verification of the device protocol client of the authenticator companion
app (source file src/lib/totp-client/totp-client.ts).

The TypeScript client is shallowly embedded as follows.

Pure string manipulation (the sanitization steps of executeCommand) is
translated into Lean functions over List Char that mirror the exact
ECMAScript semantics of the string and regex operations used by the code:
String.prototype.replace with a string pattern replaces only the first
occurrence; a global regex replace scans left to right, restarts after each
match, and advances by one position after an empty match; in a regex
literal a backslash-b outside a character class is a word boundary; with
the m flag the anchors match around any of LF, CR, LS, PS; backslash-s
matches whitespace including CR and LF.

Stateful asynchronous code is embedded as explicit state passing plus an
oracle script: each call the client makes to the serial primitives
(readUntil, openAsync, closeAsync, SerialPort.list) consumes the next entry
of a script that describes what the external device and transport did, and
the client appends the externally visible actions it performs (writes,
reads with their deadlines, emitted events, delays) to an action trace.

The serial primitives themselves (serial-port-extensions.ts,
serial-port-async.ts) and the protocol constants (constants.ts) belong to
the repository but are not among the provided sources; they are modelled
from the specification where indicated by the doc comments below.
-/

/-- Modelled from the spec: the device command prefix (constants.ts is not
among the provided sources; the spec only says it is a literal string fixed
by the target firmware CLI contract). -/
def TotpCommand : String := "totp"

/-- Modelled from the spec: the end-of-response marker, a fixed CLI-prompt
sentinel. The spec round-trip example uses the end marker consisting of
three greater-than signs followed by a space. -/
def FlipperCliEndOfCommand : String := ">>> "

/-- Modelled from the spec: the vendor identifier of the target hardware
(constants.ts is not among the provided sources; the concrete value is
irrelevant to every claim). -/
def FlipperVendorId : String := "0483"

/-- Modelled from the spec: the product identifier of the target hardware
(constants.ts is not among the provided sources; the concrete value is
irrelevant to every claim). -/
def FlipperProductId : String := "5740"

/-- Modelled from the spec: the PIN-request sentinel, the text pattern
indicating the device is blocking on a keypad-entered PIN. The exact
literal is not among the provided sources; a representative literal is
used, and no claim below depends on its exact spelling. -/
def TotpAskForPin : String := "PleaseEnterPIN"

/-- Modelled from the spec: the cancelled-command sentinel. The exact
literal is not among the provided sources; a representative literal is
used. -/
def TotpCommandCancelled : String := "Cancelled"

/-- Modelled from the spec: the command-not-found sentinel of the device
CLI shell. The exact literal is not among the provided sources; a
representative literal is used. -/
def FlipperCliCommandNotFound : String := "command not found"

/-- Containment of the pattern p as a contiguous substring of a list of
characters, mirroring ECMAScript String.prototype.includes. -/
def containsSub (p : List Char) : List Char → Bool
  | [] => p.isEmpty
  | c :: cs => p.isPrefixOf (c :: cs) || containsSub p cs

/-- ECMAScript s.includes(pat) on Lean strings. -/
def containsStr (s pat : String) : Bool := containsSub pat.data s.data

/-- Number of positions of l at which the pattern p occurs as a contiguous
substring (occurrences may overlap; for a nonempty p the position at the
very end of l never carries an occurrence). -/
def occ (p : List Char) : List Char → Nat
  | [] => 0
  | c :: cs => (if p.isPrefixOf (c :: cs) then 1 else 0) + occ p cs

/-- ECMAScript String.prototype.replace with a STRING pattern and empty
replacement: removes only the first occurrence of p, and returns the input
unchanged when p does not occur. -/
def replaceFirstL (p : List Char) : List Char → List Char
  | [] => []
  | c :: cs => if p.isPrefixOf (c :: cs) then (c :: cs).drop p.length else c :: replaceFirstL p cs

/-- ECMAScript word character (the w class): ASCII letters, digits and the
underscore. Used by the word-boundary assertions of the terminal-control
regex of executeCommand. -/
def isWordChar (c : Char) : Bool :=
  (('a' ≤ c && c ≤ 'z') || ('A' ≤ c && c ≤ 'Z') || ('0' ≤ c && c ≤ '9') || c == '_')

/-- Word-character test on the character preceding the scan position; none
means the position is the start of the input, where no word character
precedes. -/
def isWordOpt : Option Char → Bool
  | none => false
  | some c => isWordChar c

/-- ECMAScript LineTerminator set, used by the multiline anchors. -/
def isLineTerm (c : Char) : Bool :=
  c == '\n' || c == '\r' || c == '\u2028' || c == '\u2029'

/-- ECMAScript whitespace (the s class), restricted to the characters that
can actually occur here: ASCII whitespace, NBSP, the unicode line
separators and the BOM. -/
def isJsWs (c : Char) : Bool :=
  c == ' ' || c == '\t' || c == '\x0b' || c == '\x0c' || c == '\u00a0' ||
  c == '\ufeff' || isLineTerm c

/-- Length of a match, at the head of the input, of the escape-sequence
alternative of the terminal-control regex of executeCommand: ESC, an
opening bracket, then either one or more digits followed by the letter m,
or the letter A, or the two characters 2K. Backtracking of the greedy
digit run cannot produce further matches, because every shorter digit run
still ends at a digit rather than at the letter m. -/
def escMatchLen : List Char → Option Nat
  | c1 :: c2 :: rest =>
    if c1 == '\x1b' && c2 == '[' then
      let ds := rest.takeWhile (fun c => c.isDigit)
      if !ds.isEmpty && (rest.drop ds.length).head? == some 'm' then some (ds.length + 3)
      else if rest.head? == some 'A' then some 3
      else if rest.head? == some '2' && (rest.drop 1).head? == some 'K' then some 4
      else none
    else none
  | _ => none

/-- Length of a match, at the head of the input, of the second alternative
of the terminal-control regex: a word boundary, a space, a word boundary,
then an optional CR. In ECMAScript a backslash-b in a regex literal is a
word-boundary assertion (not a backspace), so this alternative matches a
single space whose neighbouring characters are both word characters. The
optional CR can never participate: the boundary after the space already
requires the next character to be a word character. -/
def spaceMatchLen (prev : Option Char) : List Char → Option Nat
  | c1 :: c2 :: _ => if c1 == ' ' && isWordOpt prev && isWordChar c2 then some 1 else none
  | _ => none

/-- Global replace with empty replacement of the terminal-control regex of
executeCommand, as a left-to-right scan. prev is the character of the
ORIGINAL input immediately before the scan position (ECMAScript evaluates
word boundaries on the original input, and replacements never re-examine
already-produced output). The fuel argument strictly exceeds the input
length at the wrapper, so the zero-fuel case is never reached. -/
def ctrlGoF : Nat → Option Char → List Char → List Char
  | 0, _, _ => []
  | _ + 1, _, [] => []
  | fuel + 1, prev, c :: cs =>
    match escMatchLen (c :: cs) with
    | some k => ctrlGoF fuel (some (((c :: cs).take k).getLastD c)) (cs.drop (k - 1))
    | none =>
      match spaceMatchLen prev (c :: cs) with
      | some _ => ctrlGoF fuel (some ' ') cs
      | none => c :: ctrlGoF fuel (some c) cs

/-- The terminal-control sanitization step of executeCommand. -/
def ctrlScan (l : List Char) : List Char := ctrlGoF (l.length + 1) none l

/-- The multiline end anchor of the blank-line regex: true at the end of
the input or when the character at the position is a LineTerminator. -/
def dollarOk : List Char → Bool
  | [] => true
  | c :: _ => isLineTerm c

/-- The multiline start anchor: true at the start of the input or when the
preceding character is a LineTerminator. -/
def anchorOk : Option Char → Bool
  | none => true
  | some c => isLineTerm c

/-- The tail of the blank-line regex after the whitespace run: an optional
LF followed by the end anchor, with the greedy option tried first. Returns
the number of characters consumed. When the head is LF and the greedy
option fails, the empty option always succeeds, because the unconsumed LF
is itself a LineTerminator and so satisfies the end anchor. -/
def tryNLen : List Char → Option Nat
  | [] => some 0
  | c :: rest =>
    if c == '\n' then (if dollarOk rest then some 1 else some 0)
    else if isLineTerm c then some 0 else none

/-- The optional CR followed by the optional LF and the end anchor, with
the greedy option tried first. Returns the number of characters consumed.
When the head is CR and the greedy option fails, the empty option always
succeeds, because the unconsumed CR is itself a LineTerminator and so
satisfies the end anchor. -/
def tryRLen : List Char → Option Nat
  | [] => some 0
  | c :: rest =>
    if c == '\r' then
      match tryNLen rest with
      | some k => some (k + 1)
      | none => some 0
    else tryNLen (c :: rest)

/-- Backtracking of the greedy whitespace run of the blank-line regex:
n is the attempted length of the run, tried from the maximal run length
downwards, as ECMAScript does for a greedy quantifier. Returns the total
number of characters consumed by the whole match. -/
def elDescend (l : List Char) : Nat → Option Nat
  | 0 => tryRLen l
  | n + 1 =>
    match tryRLen (l.drop (n + 1)) with
    | some k => some (n + 1 + k)
    | none => elDescend l n

/-- Length of the match of the blank-line regex body at an anchored
position: a greedy whitespace run, an optional CR, an optional LF, then
the end anchor. -/
def emptyLineMatchLen (l : List Char) : Option Nat :=
  elDescend l (l.takeWhile isJsWs).length

/-- Global replace with empty replacement of the blank-line regex of
executeCommand, as a left-to-right scan over the original input. An empty
match keeps the current character and advances one position, exactly as
ECMAScript advances lastIndex past an empty match. -/
def blankGoF : Nat → Option Char → List Char → List Char
  | 0, _, _ => []
  | _ + 1, _, [] => []
  | fuel + 1, prev, c :: cs =>
    if anchorOk prev then
      match emptyLineMatchLen (c :: cs) with
      | some 0 => c :: blankGoF fuel (some c) cs
      | some (k + 1) => blankGoF fuel (some (((c :: cs).take (k + 1)).getLastD c)) (cs.drop k)
      | none => c :: blankGoF fuel (some c) cs
    else c :: blankGoF fuel (some c) cs

/-- The blank-line sanitization step of executeCommand. -/
def blankScan (l : List Char) : List Char := blankGoF (l.length + 1) none l

/-- The per-call configuration bag of executeCommand. The end-of-response
marker is modelled in its string form only: the default is the string
sentinel, and every claim about the marker concerns the string case. -/
structure ExecOpts where
  skipFirstLine : Bool
  trimCommandEndSignature : Bool
  trimEmptyLines : Bool
  trimTerminalControlCommands : Bool
  commandEndSign : String
deriving DecidableEq, Repr

/-- The static default option bag of TotpAppClient. -/
def executeCommandDefaultOptions : ExecOpts :=
  { skipFirstLine := true
    trimCommandEndSignature := true
    trimEmptyLines := true
    trimTerminalControlCommands := true
    commandEndSign := FlipperCliEndOfCommand }

/-- The first sanitization replacement of executeCommand: strip the first
occurrence of the end marker, when enabled. -/
def stepEndSign (opts : ExecOpts) (l : List Char) : List Char :=
  if opts.trimCommandEndSignature then replaceFirstL opts.commandEndSign.data l else l

/-- The second sanitization replacement of executeCommand: strip terminal
control sequences, when enabled. -/
def stepCtrl (opts : ExecOpts) (l : List Char) : List Char :=
  if opts.trimTerminalControlCommands then ctrlScan l else l

/-- The third sanitization replacement of executeCommand: strip blank
lines, when enabled. -/
def stepBlank (opts : ExecOpts) (l : List Char) : List Char :=
  if opts.trimEmptyLines then blankScan l else l

/-- The three sanitization replacements of executeCommand, applied in the
order of the source: strip the first occurrence of the end marker, strip
terminal control sequences, strip blank lines. -/
def postSteps (opts : ExecOpts) (l : List Char) : List Char :=
  stepBlank opts (stepCtrl opts (stepEndSign opts l))

/-- The post-processing of executeCommand after the retry loop: a missing
response (the empty string is falsy in ECMAScript) or a response carrying
the cancelled sentinel becomes the explicit no-response value, every other
response is sanitized. -/
def execPostProcess (opts : ExecOpts) (r : String) : Option String :=
  if (r == "") || containsStr r TotpCommandCancelled then none
  else some (String.mk (postSteps opts r.data))

/-- Outcome of one readUntil call of the transport oracle: the accumulated
text on success, or a deadline failure. -/
inductive ReadRes
  | data (s : String)
  | rtimeout
deriving DecidableEq, Repr

/-- The externally visible actions the client performs, in order: emitted
events, serial opens with their baud rate, reads with their deadline in
milliseconds (none for an unbounded read), writes, fixed delays, the
registration of the channel-closure observer, and the storing of the
transport in the client field. -/
inductive Act
  | emitConnecting
  | waitDevice
  | openPort (baudRate : Nat)
  | closePort
  | registerCloseObserver
  | storePort
  | emitConnected
  | emitPinRequested
  | emitClosed
  | write (command : String)
  | read (deadlineMs : Option Nat)
  | delayMs (ms : Nat)
deriving DecidableEq, Repr

/-- Result of executeCommand: a normal return (with the explicit
no-response value inside), a propagated readUntil deadline error, or the
exhaustion of the oracle script while the loop was still running (the
modelling artifact for an execution that has not finished). -/
inductive ExecOut
  | ok (res : Option String)
  | timedOut
  | stuck
deriving DecidableEq, Repr

/-- An execution trace of executeCommand: the performed actions and the
outcome. -/
structure ExecTrace where
  acts : List Act
  out : ExecOut
deriving DecidableEq, Repr

/-- The tail of one loop iteration of executeCommand, for a client that
already holds a live transport (each getSerialPort call inside the loop
then returns the held transport with no further action): the main
5-second response read and everything after it. pre is the action trace
of the iteration so far. The iteration decides command-found (a truthy
response not containing the not-found sentinel); when found and the
response carries the PIN sentinel, it emits pin-requested and re-reads
with no deadline; when not found, it waits one second and hands the rest
of the script to the retry continuation. -/
def execMainRead (opts : ExecOpts) (retry : List ReadRes → ExecTrace)
    (pre : List Act) : List ReadRes → ExecTrace
  | [] => ⟨pre ++ [Act.read (some 5000)], ExecOut.stuck⟩
  | ReadRes.rtimeout :: _ => ⟨pre ++ [Act.read (some 5000)], ExecOut.timedOut⟩
  | ReadRes.data r :: script2 =>
    let commandFound := !(r == "") && !(containsStr r FlipperCliCommandNotFound)
    if commandFound then
      if containsStr r TotpAskForPin then
        match script2 with
        | [] => ⟨pre ++ [Act.read (some 5000), Act.emitPinRequested, Act.read none], ExecOut.stuck⟩
        | ReadRes.rtimeout :: _ =>
          ⟨pre ++ [Act.read (some 5000), Act.emitPinRequested, Act.read none], ExecOut.timedOut⟩
        | ReadRes.data r2 :: _ =>
          ⟨pre ++ [Act.read (some 5000), Act.emitPinRequested, Act.read none],
            ExecOut.ok (execPostProcess opts r2)⟩
      else ⟨pre ++ [Act.read (some 5000)], ExecOut.ok (execPostProcess opts r)⟩
    else
      let rest := retry script2
      ⟨pre ++ [Act.read (some 5000), Act.delayMs 1000] ++ rest.acts, rest.out⟩

/-- The retry loop of executeCommand; one iteration writes the command,
optionally skips the first echoed line with a 1-second read, and hands the
remaining script to execMainRead, passing the next loop turn (with one
unit of fuel less) as the retry continuation. -/
def execLoopF (opts : ExecOpts) (command : String) : Nat → List ReadRes → ExecTrace
  | 0, _ => ⟨[], ExecOut.stuck⟩
  | fuel + 1, script =>
    if opts.skipFirstLine then
      match script with
      | [] => ⟨[Act.write command, Act.read (some 1000)], ExecOut.stuck⟩
      | ReadRes.rtimeout :: _ => ⟨[Act.write command, Act.read (some 1000)], ExecOut.timedOut⟩
      | ReadRes.data _ :: script1 =>
        execMainRead opts (execLoopF opts command fuel)
          [Act.write command, Act.read (some 1000)] script1
    else execMainRead opts (execLoopF opts command fuel) [Act.write command] script

/-- executeCommand of TotpAppClient against an oracle script of read
results, for a client already holding a live transport. -/
def executeCommand (opts : ExecOpts) (command : String) (script : List ReadRes) : ExecTrace :=
  execLoopF opts command (script.length + 1) script

/-- One connection attempt of the oracle for the getSerialPort loop: the
open fails, or the open succeeds and the 1-second readiness probe fails,
or both succeed; the port identifier names the transport that was (or
would have been) opened. -/
inductive AttemptRes
  | openFail
  | probeFail (portId : Nat)
  | success (portId : Nat)
deriving DecidableEq, Repr

/-- The connection loop of getSerialPort, for a client holding no
transport, against an oracle script of connection attempts. Mirrors the
do-while of the source: every iteration emits connecting, waits for a
device, and opens at the fixed baud rate; an open failure delays one
second and repeats; a probe failure closes the port, delays one second and
repeats; on success the closure observer is registered, the port stored
and connected emitted. Returns the stored port (none when the script is
exhausted while the loop is still running) and the action trace. -/
def connectLoop : List AttemptRes → Option Nat × List Act
  | [] => (none, [])
  | a :: rest =>
    match a with
    | AttemptRes.openFail =>
      let r := connectLoop rest
      (r.1, [Act.emitConnecting, Act.waitDevice, Act.openPort 115200, Act.delayMs 1000] ++ r.2)
    | AttemptRes.probeFail _ =>
      let r := connectLoop rest
      (r.1, [Act.emitConnecting, Act.waitDevice, Act.openPort 115200, Act.read (some 1000),
             Act.closePort, Act.delayMs 1000] ++ r.2)
    | AttemptRes.success pid =>
      (some pid, [Act.emitConnecting, Act.waitDevice, Act.openPort 115200, Act.read (some 1000),
                  Act.registerCloseObserver, Act.storePort, Act.emitConnected])

/-- The client state: the single transport field of TotpAppClient. -/
structure ClientState where
  serialPort : Option Nat
deriving DecidableEq, Repr

/-- getSerialPort of TotpAppClient: when a transport is held it is
returned at once with no actions; otherwise the connection loop runs and
the successfully opened transport is stored. Returns the transport handed
to the caller, the new state and the action trace. -/
def getSerialPort (st : ClientState) (script : List AttemptRes) :
    Option Nat × ClientState × List Act :=
  match st.serialPort with
  | some p => (some p, st, [])
  | none =>
    match connectLoop script with
    | (some pid, acts) => (some pid, { serialPort := some pid }, acts)
    | (none, acts) => (none, st, acts)

/-- close of TotpAppClient: when a transport is held it is closed first
(its closure fires the registered observer, which clears the field), and
the closed event is emitted in every case. closeAsync is modelled from
the spec as succeeding: the spec states that close never raises and always
emits closed. -/
def closeClient (st : ClientState) : ClientState × List Act :=
  match st.serialPort with
  | some _ => ({ serialPort := none }, [Act.closePort, Act.emitClosed])
  | none => (st, [Act.emitClosed])

/-- The closure observer registered by getSerialPort: when the channel
closes, the held transport is cleared. -/
def onPortClose (_ : ClientState) : ClientState := { serialPort := none }

/-- The operations that touch the transport field of a client, for the
single-transport invariant: a getSerialPort call with its oracle script, a
close call, and an externally fired channel-closure event. -/
inductive ClientOp
  | getPort (script : List AttemptRes)
  | close
  | portClosed

/-- One client operation as a state transition with an action trace. -/
def runOp (st : ClientState) : ClientOp → ClientState × List Act
  | ClientOp.getPort script =>
    let r := getSerialPort st script
    (r.2.1, r.2.2)
  | ClientOp.close => closeClient st
  | ClientOp.portClosed => (onPortClose st, [])

/-- Number of serial opens in an action trace. -/
def countOpens (acts : List Act) : Nat :=
  acts.countP (fun a => match a with | Act.openPort _ => true | _ => false)

/-- Number of pin-requested events in an action trace. -/
def countPin (acts : List Act) : Nat :=
  acts.countP (fun a => match a with | Act.emitPinRequested => true | _ => false)

/-- Number of closed events in an action trace. -/
def countClosed (acts : List Act) : Nat :=
  acts.countP (fun a => match a with | Act.emitClosed => true | _ => false)

/-- Number of connecting events in an action trace. -/
def countConnecting (acts : List Act) : Nat :=
  acts.countP (fun a => match a with | Act.emitConnecting => true | _ => false)

/-- Number of command writes in an action trace. -/
def countWritesA (acts : List Act) : Nat :=
  acts.countP (fun a => match a with | Act.write _ => true | _ => false)

/-- Number of fixed delays in an action trace. -/
def countDelays (acts : List Act) : Nat :=
  acts.countP (fun a => match a with | Act.delayMs _ => true | _ => false)

/-- Number of serial opens performed along a run of client operations at
moments when the client already held a transport. -/
def badOpens (st : ClientState) : List ClientOp → Nat
  | [] => 0
  | op :: ops =>
    let r := runOp st op
    (if st.serialPort.isSome then countOpens r.2 else 0) + badOpens r.1 ops

/-- A serial endpoint as reported by the enumeration primitive: a path
plus optional vendor and product identifiers (absent on adapters that do
not report them, in which case the loose equality of the source compares
unequal). -/
structure PortInfo where
  path : String
  vendorId : Option String
  productId : Option String
deriving DecidableEq, Repr

/-- The predicate of getFlipperZeroDevice: both identifiers equal the
known constants of the target hardware. -/
def isFlipperPort (p : PortInfo) : Bool :=
  p.vendorId == some FlipperVendorId && p.productId == some FlipperProductId

/-- getFlipperZeroDevice: the first enumerated endpoint whose vendor and
product identifiers match the known constants. -/
def getFlipperZeroDevice (serialDevices : List PortInfo) : Option PortInfo :=
  serialDevices.find? isFlipperPort

/-- The end-of-response marker as a list of characters. -/
def eocL : List Char := ['>', '>', '>', ' ']

/-- An attempt of the connection oracle that does not reach the success
branch of the loop. -/
def isFailAttempt : AttemptRes → Bool
  | AttemptRes.openFail => true
  | AttemptRes.probeFail _ => true
  | AttemptRes.success _ => false

/-- The actions one failed iteration of the connection loop performs. -/
def failureActs : AttemptRes → List Act
  | AttemptRes.openFail =>
    [Act.emitConnecting, Act.waitDevice, Act.openPort 115200, Act.delayMs 1000]
  | AttemptRes.probeFail _ =>
    [Act.emitConnecting, Act.waitDevice, Act.openPort 115200, Act.read (some 1000),
     Act.closePort, Act.delayMs 1000]
  | AttemptRes.success _ => []

/-- The actions the successful final iteration of the connection loop
performs. -/
def successActs : List Act :=
  [Act.emitConnecting, Act.waitDevice, Act.openPort 115200, Act.read (some 1000),
   Act.registerCloseObserver, Act.storePort, Act.emitConnected]

/-- A successful prefix test yields an append decomposition. -/
theorem pfx_decomp {p l : List Char} (h : p.isPrefixOf l = true) : ∃ t, l = p ++ t := by
  induction p generalizing l with
  | nil => exact ⟨l, rfl⟩
  | cons a as ih =>
    cases l with
    | nil => simp [List.isPrefixOf] at h
    | cons b bs =>
      simp only [List.isPrefixOf, Bool.and_eq_true, beq_iff_eq] at h
      obtain ⟨rfl, hrest⟩ := h
      obtain ⟨t, rfl⟩ := ih hrest
      exact ⟨t, rfl⟩

/-- A prefix is in particular a subsequence. -/
theorem pfx_sublist {p l : List Char} (h : p.isPrefixOf l = true) : List.Sublist p l := by
  obtain ⟨t, rfl⟩ := pfx_decomp h
  exact List.sublist_append_left p t

/-- A contiguous substring is in particular a subsequence. -/
theorem containsSub_sublist {p l : List Char} (h : containsSub p l = true) :
    List.Sublist p l := by
  induction l with
  | nil =>
    simp only [containsSub, List.isEmpty_iff] at h
    simp [h]
  | cons c cs ih =>
    simp only [containsSub, Bool.or_eq_true] at h
    rcases h with h | h
    · exact pfx_sublist h
    · exact (ih h).cons c

/-- Removing the first occurrence of a pattern yields a subsequence of the
input. -/
theorem replaceFirstL_sublist (p : List Char) : ∀ l, List.Sublist (replaceFirstL p l) l := by
  intro l
  induction l with
  | nil => simp [replaceFirstL]
  | cons c cs ih =>
    simp only [replaceFirstL]
    split
    · exact List.drop_sublist _ _
    · exact ih.cons₂ c

/-- The terminal-control scan yields a subsequence of the input. -/
theorem ctrlGoF_sublist : ∀ fuel prev l, List.Sublist (ctrlGoF fuel prev l) l := by
  intro fuel
  induction fuel with
  | zero => intro prev l; exact List.nil_sublist l
  | succ f ih =>
    intro prev l
    cases l with
    | nil => exact List.nil_sublist []
    | cons c cs =>
      simp only [ctrlGoF]
      cases hesc : escMatchLen (c :: cs) with
      | some k => exact ((ih _ _).trans (List.drop_sublist _ _)).cons c
      | none =>
        cases hsp : spaceMatchLen prev (c :: cs) with
        | some k => exact (ih _ _).cons c
        | none => exact (ih _ _).cons₂ c

/-- The blank-line scan yields a subsequence of the input. -/
theorem blankGoF_sublist : ∀ fuel prev l, List.Sublist (blankGoF fuel prev l) l := by
  intro fuel
  induction fuel with
  | zero => intro prev l; exact List.nil_sublist l
  | succ f ih =>
    intro prev l
    cases l with
    | nil => exact List.nil_sublist []
    | cons c cs =>
      simp only [blankGoF]
      split
      · cases hm : emptyLineMatchLen (c :: cs) with
        | some k =>
          cases k with
          | zero => exact (ih _ _).cons₂ c
          | succ k0 => exact ((ih _ _).trans (List.drop_sublist _ _)).cons c
        | none => exact (ih _ _).cons₂ c
      · exact (ih _ _).cons₂ c

/-- The whole sanitization pipeline yields a subsequence of the input. -/
theorem postSteps_sublist (opts : ExecOpts) (l : List Char) :
    List.Sublist (postSteps opts l) l := by
  have h1 : List.Sublist (stepEndSign opts l) l := by
    unfold stepEndSign; split
    · exact replaceFirstL_sublist _ _
    · exact List.Sublist.refl l
  have h2 : List.Sublist (stepCtrl opts (stepEndSign opts l)) (stepEndSign opts l) := by
    unfold stepCtrl; split
    · exact ctrlGoF_sublist _ _ _
    · exact List.Sublist.refl _
  have h3 : List.Sublist (postSteps opts l) (stepCtrl opts (stepEndSign opts l)) := by
    unfold postSteps stepBlank; split
    · exact blankGoF_sublist _ _ _
    · exact List.Sublist.refl _
  exact (h3.trans h2).trans h1

/-- A sanitized result returned by the post-processing is, at the level of
characters, the pipeline output of the raw response. -/
theorem execPostProcess_data {opts : ExecOpts} {r s : String}
    (h : execPostProcess opts r = some s) : s.data = postSteps opts r.data := by
  unfold execPostProcess at h
  split at h
  · exact absurd h (by simp)
  · obtain rfl : String.mk (postSteps opts r.data) = s := by injection h
    rfl

/-- A sanitized result returned by the post-processing is a subsequence of
the raw response. -/
theorem execPostProcess_sublist {opts : ExecOpts} {r s : String}
    (h : execPostProcess opts r = some s) : List.Sublist s.data r.data := by
  rw [execPostProcess_data h]
  exact postSteps_sublist opts r.data

/-- Claim C6: for every list of enumerated serial endpoints,
getFlipperZeroDevice returns the first endpoint, in enumeration order,
whose vendor and product identifiers equal the known constants, and
returns none exactly when no endpoint matches; as a pure function of the
list it is deterministic. -/
theorem claim6_find_first (l : List PortInfo) :
    (∀ d, getFlipperZeroDevice l = some d →
      isFlipperPort d = true ∧ ∃ u v, l = u ++ d :: v ∧ ∀ e ∈ u, isFlipperPort e = false)
    ∧ (getFlipperZeroDevice l = none → ∀ e ∈ l, isFlipperPort e = false) := by
  induction l with
  | nil =>
    constructor
    · intro d hd
      simp [getFlipperZeroDevice] at hd
    · intro _ e he
      simp at he
  | cons c cs ih =>
    by_cases hc : isFlipperPort c = true
    · constructor
      · intro d hd
        rw [getFlipperZeroDevice, List.find?_cons_of_pos _ hc] at hd
        obtain rfl : c = d := by injection hd
        refine ⟨hc, [], cs, rfl, ?_⟩
        intro e he
        simp at he
      · intro hn
        rw [getFlipperZeroDevice, List.find?_cons_of_pos _ hc] at hn
        simp at hn
    · have hcf : isFlipperPort c = false := by
        cases hcc : isFlipperPort c
        · rfl
        · exact absurd hcc hc
      constructor
      · intro d hd
        rw [getFlipperZeroDevice, List.find?_cons_of_neg _ hc] at hd
        obtain ⟨hd1, u, v, hsplit, hu⟩ := ih.1 d hd
        refine ⟨hd1, c :: u, v, by simp [hsplit], ?_⟩
        intro e he
        rcases List.mem_cons.mp he with rfl | he2
        · exact hcf
        · exact hu e he2
      · intro hn
        rw [getFlipperZeroDevice, List.find?_cons_of_neg _ hc] at hn
        intro e he
        rcases List.mem_cons.mp he with rfl | he2
        · exact hcf
        · exact ih.2 hn e he2

/-- Witness for claim C6 at a concrete endpoint list: the second endpoint
is the matching one, and the first does not match. -/
theorem claim6_witness :
    getFlipperZeroDevice
        [⟨"p0", none, none⟩, ⟨"p1", some FlipperVendorId, some FlipperProductId⟩] =
      some ⟨"p1", some FlipperVendorId, some FlipperProductId⟩
    ∧ (isFlipperPort ⟨"p1", some FlipperVendorId, some FlipperProductId⟩ = true
       ∧ ∃ u v,
          ([⟨"p0", none, none⟩, ⟨"p1", some FlipperVendorId, some FlipperProductId⟩] :
            List PortInfo) = u ++ (⟨"p1", some FlipperVendorId, some FlipperProductId⟩ : PortInfo) :: v
          ∧ ∀ e ∈ u, isFlipperPort e = false) :=
  ⟨by decide,
   (claim6_find_first
      [⟨"p0", none, none⟩, ⟨"p1", some FlipperVendorId, some FlipperProductId⟩]).1
     ⟨"p1", some FlipperVendorId, some FlipperProductId⟩ (by decide)⟩

/-- Claim C9: close emits exactly one closed event and raises no error in
every client state; when a transport is held the transport is closed first
(and the field cleared by the registered observer), and when none is held
the closed event is still the only action. -/
theorem claim9_close (st : ClientState) :
    countClosed (closeClient st).2 = 1
    ∧ (closeClient st).1.serialPort = none
    ∧ (∀ p, st.serialPort = some p →
        (closeClient st).2 = [Act.closePort, Act.emitClosed])
    ∧ (st.serialPort = none → (closeClient st).2 = [Act.emitClosed]) := by
  obtain ⟨sp⟩ := st
  cases sp with
  | none =>
    refine ⟨rfl, rfl, ?_, fun _ => rfl⟩
    intro p hp
    simp at hp
  | some q =>
    refine ⟨rfl, rfl, fun p _ => rfl, ?_⟩
    intro hp
    simp at hp

/-- Witness for claim C9 at a client holding transport 5 and at a client
holding none. -/
theorem claim9_witness :
    ((⟨some 5⟩ : ClientState).serialPort = some 5
      ∧ (closeClient ⟨some 5⟩).2 = [Act.closePort, Act.emitClosed])
    ∧ ((⟨none⟩ : ClientState).serialPort = none
      ∧ (closeClient ⟨none⟩).2 = [Act.emitClosed]) :=
  ⟨⟨rfl, (claim9_close ⟨some 5⟩).2.2.1 5 rfl⟩, ⟨rfl, (claim9_close ⟨none⟩).2.2.2 rfl⟩⟩

/-- Claim C7: along every sequence of client operations no serial open is
ever performed while a transport is already held; a getSerialPort call on
a client holding a transport returns that transport unchanged with no
actions, and a successful connection from the empty state stores exactly
the newly opened transport (the new session replaces the old one, which
must have been cleared by close or by the closure observer first). -/
theorem claim7_single_transport :
    (∀ st ops, badOpens st ops = 0)
    ∧ (∀ st script p, st.serialPort = some p →
        getSerialPort st script = (some p, st, []))
    ∧ (∀ st script pid acts, st.serialPort = none →
        connectLoop script = (some pid, acts) →
        (getSerialPort st script).2.1.serialPort = some pid) := by
  refine ⟨?_, ?_, ?_⟩
  · intro st ops
    induction ops generalizing st with
    | nil => rfl
    | cons op ops ih =>
      show (if st.serialPort.isSome then countOpens (runOp st op).2 else 0)
            + badOpens (runOp st op).1 ops = 0
      rw [ih]
      cases op with
      | getPort script =>
        cases hs : st.serialPort with
        | none => simp [hs]
        | some p => simp [hs, runOp, getSerialPort, countOpens]
      | close =>
        cases hs : st.serialPort with
        | none => simp [hs]
        | some p =>
          simp [hs, runOp, closeClient, countOpens, List.countP_cons, List.countP_nil]
      | portClosed =>
        cases hs : st.serialPort with
        | none => simp [hs]
        | some p => simp [hs, runOp, countOpens]
  · intro st script p hp
    simp [getSerialPort, hp]
  · intro st script pid acts hn hc
    simp [getSerialPort, hn, hc]

/-- Witness for claim C7: a held client returns its transport untouched,
and a fresh client connecting with a one-attempt script stores the new
transport; a run mixing both performs no open while held. -/
theorem claim7_witness :
    badOpens ⟨some 1⟩ [ClientOp.getPort [AttemptRes.success 2], ClientOp.close] = 0
    ∧ ((⟨some 3⟩ : ClientState).serialPort = some 3
       ∧ getSerialPort ⟨some 3⟩ [] = (some 3, ⟨some 3⟩, []))
    ∧ ((⟨none⟩ : ClientState).serialPort = none
       ∧ connectLoop [AttemptRes.success 4] = (some 4, successActs)
       ∧ (getSerialPort ⟨none⟩ [AttemptRes.success 4]).2.1.serialPort = some 4) :=
  ⟨claim7_single_transport.1 ⟨some 1⟩ _,
   ⟨rfl, claim7_single_transport.2.1 ⟨some 3⟩ [] 3 rfl⟩,
   ⟨rfl, by decide,
    claim7_single_transport.2.2 ⟨none⟩ [AttemptRes.success 4] 4 successActs rfl (by decide)⟩⟩

/-- Claim C8: when the transport never produces the detection pattern
within the main 5-second deadline, the deadline error of the main read
propagates out of execute: the trace ends at that read, the command is not
re-sent, and the outcome is the timeout, for every default-option
execution and every further script content. -/
theorem claim8_timeout (command s1 : String) (rest : List ReadRes) :
    executeCommand executeCommandDefaultOptions command
        (ReadRes.data s1 :: ReadRes.rtimeout :: rest) =
      ⟨[Act.write command, Act.read (some 1000), Act.read (some 5000)], ExecOut.timedOut⟩ := by
  rfl

/-- The connection loop on a script of failed attempts followed by one
successful attempt: every iteration, the failed ones included, re-runs
the loop body from its top, so each failed attempt contributes its own
connecting emission before the successful iteration connects. -/
theorem connectLoop_fails_append (fails : List AttemptRes) (pid : Nat)
    (h : ∀ a ∈ fails, isFailAttempt a = true) :
    connectLoop (fails ++ [AttemptRes.success pid]) =
      (some pid, fails.flatMap failureActs ++ successActs) := by
  induction fails with
  | nil => rfl
  | cons a as ih =>
    have ha := h a (List.mem_cons_self a as)
    have hrest : ∀ b ∈ as, isFailAttempt b = true :=
      fun b hb => h b (List.mem_cons_of_mem a hb)
    cases a with
    | openFail =>
      simp [List.cons_append, connectLoop, List.append_eq, ih hrest, List.flatMap_cons,
        failureActs, List.append_assoc]
    | probeFail q =>
      simp [List.cons_append, connectLoop, List.append_eq, ih hrest, List.flatMap_cons,
        failureActs, List.append_assoc]
    | success q => simp [isFailAttempt] at ha

/-- Each failed attempt of the connection loop emits connecting exactly
once. -/
theorem countConnecting_failureActs (a : AttemptRes) (h : isFailAttempt a = true) :
    countConnecting (failureActs a) = 1 := by
  cases a with
  | openFail => rfl
  | probeFail q => rfl
  | success q => simp [isFailAttempt] at h

/-- The failed iterations of the connection loop together emit one
connecting event per failed attempt. -/
theorem countConnecting_flatMap (fails : List AttemptRes)
    (h : ∀ a ∈ fails, isFailAttempt a = true) :
    countConnecting (fails.flatMap failureActs) = fails.length := by
  induction fails with
  | nil => rfl
  | cons a as ih =>
    have ha := h a (List.mem_cons_self a as)
    have hrest : ∀ b ∈ as, isFailAttempt b = true :=
      fun b hb => h b (List.mem_cons_of_mem a hb)
    show countConnecting (failureActs a ++ as.flatMap failureActs) = as.length + 1
    unfold countConnecting
    rw [List.countP_append]
    have h1 := countConnecting_failureActs a ha
    unfold countConnecting at h1
    rw [h1]
    have h2 := ih hrest
    unfold countConnecting at h2
    rw [h2]
    omega

/-- Claim C1, amended: getSerialPort with no held transport performs, per
attempt, the sequence connecting emission, device wait, open at baud rate
115200, 1-second readiness probe; on an open failure or probe failure it
discards the transport (closing it after a probe failure) and, after a
1-second delay, retries from step 1, re-emitting connecting; on success it
registers the closure observer, stores the transport and emits connected.
The trace therefore carries one connecting emission per attempt, not a
single one. -/
theorem claim1_connect_sequence (fails : List AttemptRes) (pid : Nat)
    (h : ∀ a ∈ fails, isFailAttempt a = true) :
    connectLoop (fails ++ [AttemptRes.success pid]) =
      (some pid, fails.flatMap failureActs ++ successActs)
    ∧ countConnecting (fails.flatMap failureActs ++ successActs) = fails.length + 1 := by
  refine ⟨connectLoop_fails_append fails pid h, ?_⟩
  unfold countConnecting
  rw [List.countP_append]
  have h2 := countConnecting_flatMap fails h
  unfold countConnecting at h2
  rw [h2]
  rfl

/-- Witness for the amended claim C1 at a concrete one-failure script. -/
theorem claim1_witness :
    (∀ a ∈ [AttemptRes.probeFail 1], isFailAttempt a = true)
    ∧ (connectLoop ([AttemptRes.probeFail 1] ++ [AttemptRes.success 3]) =
        (some 3, [AttemptRes.probeFail 1].flatMap failureActs ++ successActs)
      ∧ countConnecting ([AttemptRes.probeFail 1].flatMap failureActs ++ successActs) =
        [AttemptRes.probeFail 1].length + 1) :=
  ⟨by decide, claim1_connect_sequence [AttemptRes.probeFail 1] 3 (by decide)⟩

/-- Counterexample to claim C1 as stated: with one open failure before a
successful attempt, the client emits connecting twice, because the loop
retries from its first step (the connecting emission) and not from the
device-discovery step. -/
theorem claim1_counterexample :
    connectLoop [AttemptRes.openFail, AttemptRes.success 7] =
      (some 7,
       [Act.emitConnecting, Act.waitDevice, Act.openPort 115200, Act.delayMs 1000,
        Act.emitConnecting, Act.waitDevice, Act.openPort 115200, Act.read (some 1000),
        Act.registerCloseObserver, Act.storePort, Act.emitConnected])
    ∧ countConnecting
        [Act.emitConnecting, Act.waitDevice, Act.openPort 115200, Act.delayMs 1000,
         Act.emitConnecting, Act.waitDevice, Act.openPort 115200, Act.read (some 1000),
         Act.registerCloseObserver, Act.storePort, Act.emitConnected] = 2 :=
  ⟨rfl, rfl⟩

/-- Claim C3, amended: on the round-trip example of the spec the executed
command with default options yields the text consisting of line1, CRLF,
line2 and a bare CR: the echoed first line is skipped, the end marker is
stripped, the blank line is removed, and additionally the final LF of the
response is removed by the blank-line replacement, whose multiline anchors
also match around a bare CR and at the end of the input. -/
theorem claim3_roundtrip_value :
    (executeCommand executeCommandDefaultOptions "cmd\r"
        [ReadRes.data "cmd\r\n", ReadRes.data "line1\r\n\r\nline2\r\n>>> "]).out =
      ExecOut.ok (some "line1\r\nline2\r") := by
  rfl

/-- Counterexample to claim C3 as stated: the round-trip example does not
yield the text ending in CRLF claimed by the spec; the final LF is also
removed, so the result ends in a bare CR. -/
theorem claim3_counterexample :
    (executeCommand executeCommandDefaultOptions "cmd\r"
        [ReadRes.data "cmd\r\n", ReadRes.data "line1\r\n\r\nline2\r\n>>> "]).out ≠
      ExecOut.ok (some "line1\r\nline2\r\n") := by
  decide

/-- Claim C4: on a transport that answers the command-not-found sentinel
twice and then a found response, execute with default options re-sends the
command from the write step exactly twice more, waits one second after
each not-found response, and returns the post-processed third response. -/
theorem claim4_retry_twice (command s1 s2 s3 r1 r2 r3 : String)
    (h1 : containsStr r1 FlipperCliCommandNotFound = true)
    (h2 : containsStr r2 FlipperCliCommandNotFound = true)
    (h3 : containsStr r3 FlipperCliCommandNotFound = false)
    (h4 : (r3 == "") = false)
    (h5 : containsStr r3 TotpAskForPin = false) :
    executeCommand executeCommandDefaultOptions command
        [ReadRes.data s1, ReadRes.data r1, ReadRes.data s2, ReadRes.data r2,
         ReadRes.data s3, ReadRes.data r3] =
      ⟨[Act.write command, Act.read (some 1000), Act.read (some 5000), Act.delayMs 1000,
        Act.write command, Act.read (some 1000), Act.read (some 5000), Act.delayMs 1000,
        Act.write command, Act.read (some 1000), Act.read (some 5000)],
       ExecOut.ok (execPostProcess executeCommandDefaultOptions r3)⟩
    ∧ countWritesA [Act.write command, Act.read (some 1000), Act.read (some 5000),
        Act.delayMs 1000, Act.write command, Act.read (some 1000), Act.read (some 5000),
        Act.delayMs 1000, Act.write command, Act.read (some 1000), Act.read (some 5000)] = 3
    ∧ countDelays [Act.write command, Act.read (some 1000), Act.read (some 5000),
        Act.delayMs 1000, Act.write command, Act.read (some 1000), Act.read (some 5000),
        Act.delayMs 1000, Act.write command, Act.read (some 1000), Act.read (some 5000)] = 2 := by
  refine ⟨?_, rfl, rfl⟩
  simp [executeCommand, execLoopF, execMainRead, executeCommandDefaultOptions, h1, h2, h3,
    h4, h5]

/-- Witness for claim C4 at concrete responses. -/
theorem claim4_witness :
    containsStr "totp: command not found\r\n>>> " FlipperCliCommandNotFound = true
    ∧ containsStr "still command not found\r\n>>> " FlipperCliCommandNotFound = true
    ∧ containsStr "token list\r\n>>> " FlipperCliCommandNotFound = false
    ∧ ("token list\r\n>>> " == "") = false
    ∧ containsStr "token list\r\n>>> " TotpAskForPin = false
    ∧ executeCommand executeCommandDefaultOptions "totp ls\r"
        [ReadRes.data "e1\r\n", ReadRes.data "totp: command not found\r\n>>> ",
         ReadRes.data "e2\r\n", ReadRes.data "still command not found\r\n>>> ",
         ReadRes.data "e3\r\n", ReadRes.data "token list\r\n>>> "] =
      ⟨[Act.write "totp ls\r", Act.read (some 1000), Act.read (some 5000), Act.delayMs 1000,
        Act.write "totp ls\r", Act.read (some 1000), Act.read (some 5000), Act.delayMs 1000,
        Act.write "totp ls\r", Act.read (some 1000), Act.read (some 5000)],
       ExecOut.ok (execPostProcess executeCommandDefaultOptions "token list\r\n>>> ")⟩ :=
  ⟨by decide, by decide, by decide, by decide, by decide,
   (claim4_retry_twice "totp ls\r" "e1\r\n" "e2\r\n" "e3\r\n"
      "totp: command not found\r\n>>> " "still command not found\r\n>>> "
      "token list\r\n>>> " (by decide) (by decide) (by decide) (by decide) (by decide)).1⟩

/-- Claim C5: when the final response of an execution carries the
cancelled sentinel, or when the post-PIN re-read produces no text at all,
execute returns the explicit no-response value, which is distinct from an
empty string result. -/
theorem claim5_cancelled_none (command s1 r rp : String)
    (h1 : containsStr r TotpCommandCancelled = true)
    (h2 : containsStr r FlipperCliCommandNotFound = false)
    (h3 : containsStr r TotpAskForPin = false)
    (h4 : (r == "") = false)
    (h5 : containsStr rp TotpAskForPin = true)
    (h6 : containsStr rp FlipperCliCommandNotFound = false)
    (h7 : (rp == "") = false) :
    (executeCommand executeCommandDefaultOptions command
        [ReadRes.data s1, ReadRes.data r]).out = ExecOut.ok none
    ∧ (executeCommand executeCommandDefaultOptions command
        [ReadRes.data s1, ReadRes.data rp, ReadRes.data ""]).out = ExecOut.ok none
    ∧ ExecOut.ok none ≠ ExecOut.ok (some "") := by
  refine ⟨?_, ?_, by decide⟩
  · simp [executeCommand, execLoopF, execMainRead, executeCommandDefaultOptions,
      execPostProcess, h1, h2, h3, h4]
  · simp [executeCommand, execLoopF, execMainRead, executeCommandDefaultOptions,
      execPostProcess, h5, h6, h7]

/-- Witness for claim C5 at a concrete cancelled response and a concrete
empty post-PIN re-read. -/
theorem claim5_witness :
    containsStr "Cancelled\r\n>>> " TotpCommandCancelled = true
    ∧ containsStr "Cancelled\r\n>>> " FlipperCliCommandNotFound = false
    ∧ containsStr "Cancelled\r\n>>> " TotpAskForPin = false
    ∧ ("Cancelled\r\n>>> " == "") = false
    ∧ containsStr TotpAskForPin TotpAskForPin = true
    ∧ containsStr TotpAskForPin FlipperCliCommandNotFound = false
    ∧ (TotpAskForPin == "") = false
    ∧ (executeCommand executeCommandDefaultOptions "totp ls\r"
        [ReadRes.data "e\r\n", ReadRes.data "Cancelled\r\n>>> "]).out = ExecOut.ok none :=
  ⟨by decide, by decide, by decide, by decide, by decide, by decide, by decide,
   (claim5_cancelled_none "totp ls\r" "e\r\n" "Cancelled\r\n>>> " TotpAskForPin
      (by decide) (by decide) (by decide) (by decide) (by decide) (by decide) (by decide)).1⟩

/-- Counterexample to claim C2 as stated: when the post-PIN re-read
itself carries the PIN-prompt text again (the device re-prompts), the
sanitized text returned to the caller contains the PIN-prompt fragment,
because the code never re-checks the re-read response for the sentinel. -/
theorem claim2_counterexample :
    (executeCommand executeCommandDefaultOptions "totp ?\r"
        [ReadRes.data "totp ?\r\n", ReadRes.data (String.append "x" TotpAskForPin),
         ReadRes.data TotpAskForPin]).out =
      ExecOut.ok (some TotpAskForPin)
    ∧ containsStr TotpAskForPin TotpAskForPin = true := by
  exact ⟨rfl, by decide⟩

/-- Claim C2, amended: when the found response carries the PIN sentinel,
exactly one pin-requested event is emitted, the client then re-reads with
an unbounded deadline, the PIN-prompt-bearing raw response is discarded
(the result is computed from the re-read text alone), and, provided the
PIN-prompt fragment does not occur, not even as a scattered subsequence,
in the re-read text, the text finally returned to the caller excludes the
fragment. -/
theorem claim2_pin_flow (command s1 r1 r2 : String) (rest : List ReadRes)
    (h1 : containsStr r1 FlipperCliCommandNotFound = false)
    (h2 : (r1 == "") = false)
    (h3 : containsStr r1 TotpAskForPin = true)
    (h4 : ¬ List.Sublist TotpAskForPin.data r2.data) :
    (executeCommand executeCommandDefaultOptions command
        (ReadRes.data s1 :: ReadRes.data r1 :: ReadRes.data r2 :: rest)).acts =
      [Act.write command, Act.read (some 1000), Act.read (some 5000),
       Act.emitPinRequested, Act.read none]
    ∧ countPin (executeCommand executeCommandDefaultOptions command
        (ReadRes.data s1 :: ReadRes.data r1 :: ReadRes.data r2 :: rest)).acts = 1
    ∧ (executeCommand executeCommandDefaultOptions command
        (ReadRes.data s1 :: ReadRes.data r1 :: ReadRes.data r2 :: rest)).out =
      ExecOut.ok (execPostProcess executeCommandDefaultOptions r2)
    ∧ ∀ s, execPostProcess executeCommandDefaultOptions r2 = some s →
        containsStr s TotpAskForPin = false := by
  have hexec : executeCommand executeCommandDefaultOptions command
      (ReadRes.data s1 :: ReadRes.data r1 :: ReadRes.data r2 :: rest) =
      ⟨[Act.write command, Act.read (some 1000), Act.read (some 5000),
        Act.emitPinRequested, Act.read none],
       ExecOut.ok (execPostProcess executeCommandDefaultOptions r2)⟩ := by
    simp [executeCommand, execLoopF, execMainRead, executeCommandDefaultOptions, h1, h2, h3]
  refine ⟨by rw [hexec], by rw [hexec]; rfl, by rw [hexec], ?_⟩
  intro s hs
  cases hcs : containsStr s TotpAskForPin with
  | false => rfl
  | true =>
    have hcs' : containsSub TotpAskForPin.data s.data = true := hcs
    exact absurd ((containsSub_sublist hcs').trans (execPostProcess_sublist hs)) h4

/-- Witness for the amended claim C2 at a concrete re-prompting script
whose post-PIN output is an ordinary token response. -/
theorem claim2_witness :
    containsStr (String.append "a" TotpAskForPin) FlipperCliCommandNotFound = false
    ∧ (String.append "a" TotpAskForPin == "") = false
    ∧ containsStr (String.append "a" TotpAskForPin) TotpAskForPin = true
    ∧ ¬ List.Sublist TotpAskForPin.data ("123456\r\n>>> " : String).data
    ∧ ((executeCommand executeCommandDefaultOptions "totp ?\r"
        [ReadRes.data "e\r\n", ReadRes.data (String.append "a" TotpAskForPin),
         ReadRes.data "123456\r\n>>> "]).acts =
      [Act.write "totp ?\r", Act.read (some 1000), Act.read (some 5000),
       Act.emitPinRequested, Act.read none]
      ∧ countPin (executeCommand executeCommandDefaultOptions "totp ?\r"
          [ReadRes.data "e\r\n", ReadRes.data (String.append "a" TotpAskForPin),
           ReadRes.data "123456\r\n>>> "]).acts = 1
      ∧ (executeCommand executeCommandDefaultOptions "totp ?\r"
          [ReadRes.data "e\r\n", ReadRes.data (String.append "a" TotpAskForPin),
           ReadRes.data "123456\r\n>>> "]).out =
        ExecOut.ok (execPostProcess executeCommandDefaultOptions "123456\r\n>>> ")
      ∧ ∀ s, execPostProcess executeCommandDefaultOptions "123456\r\n>>> " = some s →
          containsStr s TotpAskForPin = false) :=
  ⟨by decide, by decide, by decide, by decide,
   claim2_pin_flow "totp ?\r" "e\r\n" (String.append "a" TotpAskForPin) "123456\r\n>>> " []
     (by decide) (by decide) (by decide) (by decide)⟩

/-- Membership from an index lookup. -/
theorem mem_of_lookup {l : List Char} {n : Nat} {a : Char} (h : l[n]? = some a) : a ∈ l := by
  obtain ⟨hlt, rfl⟩ := List.getElem?_eq_some.mp h
  exact List.getElem_mem hlt

/-- An occurrence of the end marker starts with a greater-than sign. -/
theorem eoc_pfx_head {l : List Char} (h : eocL.isPrefixOf l = true) : l.head? = some '>' := by
  cases l with
  | nil => simp [eocL, List.isPrefixOf] at h
  | cons c cs =>
    simp only [eocL, List.isPrefixOf, Bool.and_eq_true, beq_iff_eq] at h
    rw [← h.1]
    rfl

/-- A position whose character is not a greater-than sign carries no
occurrence of the end marker. -/
theorem pfx_false_of_head {l : List Char} (h : l.head? ≠ some '>') :
    eocL.isPrefixOf l = false := by
  cases hp : eocL.isPrefixOf l with
  | false => rfl
  | true => exact absurd (eoc_pfx_head hp) h

/-- A list with the end marker as prefix decomposes into the four marker
characters and a tail. -/
theorem eoc_pfx_decomp {l : List Char} (h : eocL.isPrefixOf l = true) :
    ∃ rest, l = '>' :: '>' :: '>' :: ' ' :: rest := by
  obtain ⟨t, rfl⟩ := pfx_decomp h
  exact ⟨t, rfl⟩

/-- Occurrence counting ignores an initial segment that starts no
occurrence. -/
theorem occ_drop_of_no_start :
    ∀ (k : Nat) (l : List Char), (∀ i, i < k → eocL.isPrefixOf (l.drop i) = false) →
      occ eocL l = occ eocL (l.drop k) := by
  intro k
  induction k with
  | zero => intro l _; rfl
  | succ k ih =>
    intro l h
    cases l with
    | nil => simp
    | cons c cs =>
      have h0 : eocL.isPrefixOf (c :: cs) = false := h 0 (by omega)
      have hrest : ∀ i, i < k → eocL.isPrefixOf (cs.drop i) = false := by
        intro i hi
        have := h (i + 1) (by omega)
        rwa [List.drop_succ_cons] at this
      calc occ eocL (c :: cs)
          = (if eocL.isPrefixOf (c :: cs) then 1 else 0) + occ eocL cs := rfl
        _ = occ eocL cs := by rw [h0]; simp
        _ = occ eocL (cs.drop k) := ih cs hrest
        _ = occ eocL ((c :: cs).drop (k + 1)) := by rw [List.drop_succ_cons]

/-- Appending on the left never loses occurrences of the tail. -/
theorem occ_append_left_ge (p : List Char) : ∀ u v, occ p v ≤ occ p (u ++ v) := by
  intro u v
  induction u with
  | nil => simp
  | cons c u ih =>
    calc occ p v ≤ occ p (u ++ v) := ih
      _ ≤ (if p.isPrefixOf (c :: (u ++ v)) then 1 else 0) + occ p (u ++ v) := by omega
      _ = occ p (c :: (u ++ v)) := rfl
      _ = occ p ((c :: u) ++ v) := rfl

/-- A positive occurrence count yields containment. -/
theorem contains_of_occ_pos {p l : List Char} (h : 1 ≤ occ p l) : containsSub p l = true := by
  induction l with
  | nil => simp [occ] at h
  | cons c cs ih =>
    show (p.isPrefixOf (c :: cs) || containsSub p cs) = true
    cases hp : p.isPrefixOf (c :: cs) with
    | true => rfl
    | false =>
      have : occ p (c :: cs) = occ p cs := by
        show (if p.isPrefixOf (c :: cs) then 1 else 0) + occ p cs = occ p cs
        rw [hp]; simp
      rw [this] at h
      simp [ih h]

/-- An escape-sequence match is at least three characters long and none of
its positions starts an occurrence of the end marker: the matched
characters are ESC, an opening bracket, digits and one of the letters m,
A, K or the digit 2, none of which is a greater-than sign. -/
theorem escMatchLen_spec {l : List Char} {k : Nat} (h : escMatchLen l = some k) :
    3 ≤ k ∧ ∀ i, i < k → eocL.isPrefixOf (l.drop i) = false := by
  cases l with
  | nil => simp [escMatchLen] at h
  | cons c1 l1 =>
    cases l1 with
    | nil => simp [escMatchLen] at h
    | cons c2 rest =>
      by_cases hb : (c1 == '\x1b' && c2 == '[') = true
      case neg =>
        have hbf : (c1 == '\x1b' && c2 == '[') = false := by simpa using hb
        simp [escMatchLen, hbf] at h
      case pos =>
        simp only [Bool.and_eq_true, beq_iff_eq] at hb
        obtain ⟨rfl, rfl⟩ := hb
        simp only [escMatchLen, beq_self_eq_true, Bool.and_self, if_true] at h
        by_cases h1 : (!(rest.takeWhile (fun c => c.isDigit)).isEmpty
            && (rest.drop (rest.takeWhile (fun c => c.isDigit)).length).head? == some 'm') = true
        · rw [if_pos h1] at h
          obtain rfl : (rest.takeWhile (fun c => c.isDigit)).length + 3 = k := by
            injection h
          refine ⟨by omega, ?_⟩
          intro i hi
          simp only [Bool.and_eq_true, beq_iff_eq] at h1
          match i, hi with
          | 0, _ => exact pfx_false_of_head (by simp)
          | 1, _ => exact pfx_false_of_head (by simp)
          | (j + 2), hj =>
            have hdrop : (('\x1b' :: '[' :: rest).drop (j + 2)) = rest.drop j := by
              rw [List.drop_succ_cons, List.drop_succ_cons]
            rw [hdrop]
            apply pfx_false_of_head
            rw [List.head?_drop]
            rcases Nat.lt_or_ge j (rest.takeWhile (fun c => c.isDigit)).length with hjl | hjg
            · have hsplit := List.takeWhile_append_dropWhile (fun c => c.isDigit) rest
              have hj2 : rest[j]? = (rest.takeWhile (fun c => c.isDigit))[j]? := by
                conv_lhs => rw [← hsplit]
                exact List.getElem?_append_left hjl
              rw [hj2]
              intro hcontra
              have hmem : '>' ∈ rest.takeWhile (fun c => c.isDigit) := mem_of_lookup hcontra
              have hdig : Char.isDigit '>' = true := List.mem_takeWhile_imp hmem
              simp [Char.isDigit] at hdig
            · have hje : j = (rest.takeWhile (fun c => c.isDigit)).length := by omega
              subst hje
              rw [← List.head?_drop, h1.2]
              simp
        · have h1f : (!(rest.takeWhile (fun c => c.isDigit)).isEmpty
              && (rest.drop (rest.takeWhile (fun c => c.isDigit)).length).head? == some 'm')
              = false := by simpa using h1
          rw [if_neg h1] at h
          by_cases h2 : (rest.head? == some 'A') = true
          · rw [if_pos h2] at h
            obtain rfl : 3 = k := by injection h
            refine ⟨by omega, ?_⟩
            intro i hi
            simp only [beq_iff_eq] at h2
            match i, hi with
            | 0, _ => exact pfx_false_of_head (by simp)
            | 1, _ => exact pfx_false_of_head (by simp)
            | 2, _ =>
              apply pfx_false_of_head
              show (rest.drop 0).head? ≠ some '>'
              rw [List.head?_drop]
              rw [show rest[0]? = rest.head? from (List.head?_drop rest 0) ▸ rfl]
              rw [h2]
              simp
          · have h2f : (rest.head? == some 'A') = false := by simpa using h2
            rw [if_neg h2] at h
            by_cases h3 : (rest.head? == some '2' && (rest.drop 1).head? == some 'K') = true
            · rw [if_pos h3] at h
              obtain rfl : 4 = k := by injection h
              simp only [Bool.and_eq_true, beq_iff_eq] at h3
              refine ⟨by omega, ?_⟩
              intro i hi
              match i, hi with
              | 0, _ => exact pfx_false_of_head (by simp)
              | 1, _ => exact pfx_false_of_head (by simp)
              | 2, _ =>
                apply pfx_false_of_head
                show (rest.drop 0).head? ≠ some '>'
                rw [List.drop_zero, h3.1]
                simp
              | 3, _ =>
                apply pfx_false_of_head
                show (rest.drop 1).head? ≠ some '>'
                rw [h3.2]
                simp
            · have h3f : (rest.head? == some '2' && (rest.drop 1).head? == some 'K') = false := by
                simpa using h3
              rw [if_neg h3] at h
              exact absurd h (by simp)

/-- A word-flanked-space match is exactly one character long and its
position, carrying a space, starts no occurrence of the end marker. -/
theorem spaceMatchLen_spec {prev : Option Char} {l : List Char} {k : Nat}
    (h : spaceMatchLen prev l = some k) :
    k = 1 ∧ eocL.isPrefixOf l = false := by
  cases l with
  | nil => simp [spaceMatchLen] at h
  | cons c1 l1 =>
    cases l1 with
    | nil => simp [spaceMatchLen] at h
    | cons c2 r =>
      by_cases hb : (c1 == ' ' && isWordOpt prev && isWordChar c2) = true
      · have hk : k = 1 := by
          rw [spaceMatchLen, if_pos hb] at h
          injection h with h'
          omega
        have hc1 : c1 = ' ' := by
          simp only [Bool.and_eq_true, beq_iff_eq] at hb
          exact hb.1.1
        subst hc1
        exact ⟨hk, pfx_false_of_head (by simp)⟩
      · have hbf : (c1 == ' ' && isWordOpt prev && isWordChar c2) = false := by simpa using hb
        rw [spaceMatchLen, if_neg hb] at h
        exact absurd h (by simp)

/-- Characters consumed by the optional-LF tail are whitespace. -/
theorem tryNLen_ws {l : List Char} {k : Nat} (h : tryNLen l = some k) :
    ∀ i, i < k → ∃ c, l[i]? = some c ∧ isJsWs c = true := by
  cases l with
  | nil =>
    obtain rfl : (0 : Nat) = k := by rw [tryNLen] at h; injection h
    intro i hi; omega
  | cons c rest =>
    by_cases hc : (c == '\n') = true
    · simp only [beq_iff_eq] at hc
      subst hc
      rw [tryNLen, if_pos (by simp)] at h
      by_cases hd : dollarOk rest = true
      · rw [if_pos hd] at h
        obtain rfl : (1 : Nat) = k := by injection h
        intro i hi
        match i, hi with
        | 0, _ => exact ⟨'\n', by simp, by decide⟩
      · rw [if_neg hd] at h
        obtain rfl : (0 : Nat) = k := by injection h
        intro i hi; omega
    · have hcf : (c == '\n') = false := by simpa using hc
      rw [tryNLen, if_neg (by simp [hcf])] at h
      by_cases hlt : isLineTerm c = true
      · rw [if_pos hlt] at h
        obtain rfl : (0 : Nat) = k := by injection h
        intro i hi; omega
      · rw [if_neg hlt] at h
        exact absurd h (by simp)

/-- Characters consumed by the optional-CR optional-LF tail are
whitespace. -/
theorem tryRLen_ws {l : List Char} {k : Nat} (h : tryRLen l = some k) :
    ∀ i, i < k → ∃ c, l[i]? = some c ∧ isJsWs c = true := by
  cases l with
  | nil =>
    obtain rfl : (0 : Nat) = k := by rw [tryRLen] at h; injection h
    intro i hi; omega
  | cons c rest =>
    by_cases hc : (c == '\r') = true
    · simp only [beq_iff_eq] at hc
      subst hc
      rw [tryRLen, if_pos (by simp)] at h
      cases hn : tryNLen rest with
      | some k0 =>
        rw [hn] at h
        obtain rfl : k0 + 1 = k := by injection h
        intro i hi
        match i, hi with
        | 0, _ => exact ⟨'\r', by simp, by decide⟩
        | (j + 1), hj =>
          obtain ⟨c0, hc0, hw⟩ := tryNLen_ws hn j (by omega)
          exact ⟨c0, by simpa using hc0, hw⟩
      | none =>
        rw [hn] at h
        obtain rfl : (0 : Nat) = k := by injection h
        intro i hi; omega
    · have hcf : (c == '\r') = false := by simpa using hc
      rw [tryRLen, if_neg (by simp [hcf])] at h
      exact tryNLen_ws h

/-- Characters consumed by the blank-line match are whitespace, provided
the positions below the attempted run length are whitespace. -/
theorem elDescend_ws :
    ∀ (n : Nat) (l : List Char) (m : Nat), elDescend l n = some m →
      (∀ i, i < n → ∃ c, l[i]? = some c ∧ isJsWs c = true) →
      ∀ i, i < m → ∃ c, l[i]? = some c ∧ isJsWs c = true := by
  intro n
  induction n with
  | zero =>
    intro l m h hws i hi
    obtain ⟨c, hc, hw⟩ := tryRLen_ws h i hi
    exact ⟨c, by simpa using hc, hw⟩
  | succ n ih =>
    intro l m h hws i hi
    rw [elDescend] at h
    cases htr : tryRLen (l.drop (n + 1)) with
    | some k =>
      rw [htr] at h
      obtain rfl : n + 1 + k = m := by injection h
      rcases Nat.lt_or_ge i (n + 1) with hilt | hige
      · exact hws i hilt
      · obtain ⟨c, hc, hw⟩ := tryRLen_ws htr (i - (n + 1)) (by omega)
        rw [List.getElem?_drop] at hc
        refine ⟨c, ?_, hw⟩
        rw [show n + 1 + (i - (n + 1)) = i by omega] at hc
        exact hc
    | none =>
      rw [htr] at h
      exact ih l m h (fun i hi => hws i (by omega)) i hi

/-- Positions inside the whitespace run at the head of the input carry
whitespace characters. -/
theorem takeWhile_ws {l : List Char} {i : Nat}
    (hi : i < (l.takeWhile isJsWs).length) :
    ∃ c, l[i]? = some c ∧ isJsWs c = true := by
  have hsplit := List.takeWhile_append_dropWhile isJsWs l
  have h1 : l[i]? = (l.takeWhile isJsWs)[i]? := by
    conv_lhs => rw [← hsplit]
    exact List.getElem?_append_left hi
  obtain ⟨c, hc⟩ : ∃ c, (l.takeWhile isJsWs)[i]? = some c := by
    rw [List.getElem?_eq_getElem hi]
    exact ⟨_, rfl⟩
  exact ⟨c, by rw [h1, hc], List.mem_takeWhile_imp (mem_of_lookup hc)⟩

/-- No position of a blank-line match starts an occurrence of the end
marker: every consumed character is whitespace, and the end marker starts
with a greater-than sign, which is not whitespace. -/
theorem blank_no_gt {l : List Char} {m : Nat} (h : emptyLineMatchLen l = some m) :
    ∀ i, i < m → eocL.isPrefixOf (l.drop i) = false := by
  intro i hi
  have hws := elDescend_ws (l.takeWhile isJsWs).length l m h
    (fun i hi => takeWhile_ws hi) i hi
  obtain ⟨c, hc, hw⟩ := hws
  apply pfx_false_of_head
  rw [List.head?_drop, hc]
  intro hcontra
  obtain rfl : c = '>' := by injection hcontra
  simp [isJsWs, isLineTerm] at hw

/-- A greater-than sign is copied by the terminal-control scan: neither
alternative of the regex can match at it. -/
theorem ctrl_copy_gt (fuel : Nat) (prev : Option Char) (cs : List Char) :
    ctrlGoF (fuel + 1) prev ('>' :: cs) = '>' :: ctrlGoF fuel (some '>') cs := by
  cases cs with
  | nil => rfl
  | cons c2 r => rfl

/-- A space preceded by a greater-than sign is copied by the
terminal-control scan: the word boundary before the space fails. -/
theorem ctrl_copy_sp_gt (fuel : Nat) (cs : List Char) :
    ctrlGoF (fuel + 1) (some '>') (' ' :: cs) = ' ' :: ctrlGoF fuel (some ' ') cs := by
  cases cs with
  | nil => rfl
  | cons c2 r => rfl

/-- The blank-line regex has no match at a greater-than sign. -/
theorem elm_gt (cs : List Char) : emptyLineMatchLen ('>' :: cs) = none := rfl

/-- A greater-than sign is copied by the blank-line scan, whatever
precedes it. -/
theorem blank_copy_gt (fuel : Nat) (prev : Option Char) (cs : List Char) :
    blankGoF (fuel + 1) prev ('>' :: cs) = '>' :: blankGoF fuel (some '>') cs := by
  simp only [blankGoF, elm_gt, ite_self]

/-- A space preceded by a greater-than sign is copied by the blank-line
scan: the start anchor fails there. -/
theorem blank_copy_sp_gt (fuel : Nat) (cs : List Char) :
    blankGoF (fuel + 1) (some '>') (' ' :: cs) = ' ' :: blankGoF fuel (some ' ') cs := rfl

/-- The end marker at the head of the input: the prefix test succeeds. -/
theorem pfx_eoc_4 (v : List Char) :
    eocL.isPrefixOf ('>' :: '>' :: '>' :: ' ' :: v) = true := by
  simp [eocL, List.isPrefixOf]

/-- The end marker does not begin one position into itself. -/
theorem pfx_eoc_3 (v : List Char) : eocL.isPrefixOf ('>' :: '>' :: ' ' :: v) = false := by
  simp [eocL, List.isPrefixOf]

/-- The end marker does not begin two positions into itself. -/
theorem pfx_eoc_2 (v : List Char) : eocL.isPrefixOf ('>' :: ' ' :: v) = false := by
  simp [eocL, List.isPrefixOf]

/-- The end marker does not begin at its final space. -/
theorem pfx_eoc_1 (v : List Char) : eocL.isPrefixOf (' ' :: v) = false := by
  simp [eocL, List.isPrefixOf]

/-- The terminal-control scan keeps an occurrence of the end marker that
sits at the head of the input: its four characters are all copied. -/
theorem ctrl_keeps_pfx :
    ∀ fuel prev (l : List Char), l.length < fuel → eocL.isPrefixOf l = true →
      eocL.isPrefixOf (ctrlGoF fuel prev l) = true := by
  intro fuel prev l hlen hp
  obtain ⟨rest, rfl⟩ := eoc_pfx_decomp hp
  obtain ⟨f, rfl⟩ : ∃ f, fuel = f + 4 := ⟨fuel - 4, by simp at hlen; omega⟩
  rw [show f + 4 = (f + 3) + 1 from rfl, ctrl_copy_gt]
  rw [show f + 3 = (f + 2) + 1 from rfl, ctrl_copy_gt]
  rw [show f + 2 = (f + 1) + 1 from rfl, ctrl_copy_gt]
  rw [ctrl_copy_sp_gt]
  exact pfx_eoc_4 _

/-- The blank-line scan keeps an occurrence of the end marker that sits at
the head of the input: its four characters are all copied. -/
theorem blank_keeps_pfx :
    ∀ fuel prev (l : List Char), l.length < fuel → eocL.isPrefixOf l = true →
      eocL.isPrefixOf (blankGoF fuel prev l) = true := by
  intro fuel prev l hlen hp
  obtain ⟨rest, rfl⟩ := eoc_pfx_decomp hp
  obtain ⟨f, rfl⟩ : ∃ f, fuel = f + 4 := ⟨fuel - 4, by simp at hlen; omega⟩
  rw [show f + 4 = (f + 3) + 1 from rfl, blank_copy_gt]
  rw [show f + 3 = (f + 2) + 1 from rfl, blank_copy_gt]
  rw [show f + 2 = (f + 1) + 1 from rfl, blank_copy_gt]
  rw [blank_copy_sp_gt]
  exact pfx_eoc_4 _

/-- The terminal-control scan never loses an occurrence of the end
marker: every deleted range consists of characters at which no occurrence
starts, and the four characters of an occurrence are always copied. -/
theorem ctrl_occ_ge :
    ∀ fuel (l : List Char) prev, l.length < fuel →
      occ eocL l ≤ occ eocL (ctrlGoF fuel prev l) := by
  intro fuel
  induction fuel with
  | zero => intro l prev h; omega
  | succ f ih =>
    intro l prev h
    cases l with
    | nil => simp [ctrlGoF, occ]
    | cons c cs =>
      cases hesc : escMatchLen (c :: cs) with
      | some k =>
        obtain ⟨hk3, hnogt⟩ := escMatchLen_spec hesc
        have hstep : ctrlGoF (f + 1) prev (c :: cs) =
            ctrlGoF f (some (((c :: cs).take k).getLastD c)) (cs.drop (k - 1)) := by
          simp only [ctrlGoF, hesc]
        rw [hstep]
        have hdrop : cs.drop (k - 1) = (c :: cs).drop k := by
          obtain ⟨k0, rfl⟩ : ∃ k0, k = k0 + 1 := ⟨k - 1, by omega⟩
          simp [List.drop_succ_cons]
        rw [hdrop]
        rw [occ_drop_of_no_start k (c :: cs) hnogt]
        apply ih
        simp only [List.length_drop, List.length_cons]
        simp only [List.length_cons] at h
        omega
      | none =>
        cases hsp : spaceMatchLen prev (c :: cs) with
        | some k =>
          obtain ⟨rfl, hpfxf⟩ := spaceMatchLen_spec hsp
          have hstep : ctrlGoF (f + 1) prev (c :: cs) = ctrlGoF f (some ' ') cs := by
            simp only [ctrlGoF, hesc, hsp]
          rw [hstep]
          have h1 : occ eocL (c :: cs) = occ eocL cs := by
            show (if eocL.isPrefixOf (c :: cs) then 1 else 0) + occ eocL cs = occ eocL cs
            rw [hpfxf]
            simp
          rw [h1]
          apply ih
          simp only [List.length_cons] at h
          omega
        | none =>
          have hstep : ctrlGoF (f + 1) prev (c :: cs) = c :: ctrlGoF f (some c) cs := by
            simp only [ctrlGoF, hesc, hsp]
          have hcs : occ eocL cs ≤ occ eocL (ctrlGoF f (some c) cs) := by
            apply ih
            simp only [List.length_cons] at h
            omega
          rw [hstep]
          cases hb : eocL.isPrefixOf (c :: cs) with
          | false =>
            have h1 : occ eocL (c :: cs) = occ eocL cs := by
              show (if eocL.isPrefixOf (c :: cs) then 1 else 0) + occ eocL cs = occ eocL cs
              rw [hb]
              simp
            have h2 : occ eocL (c :: ctrlGoF f (some c) cs) =
                (if eocL.isPrefixOf (c :: ctrlGoF f (some c) cs) then 1 else 0) +
                  occ eocL (ctrlGoF f (some c) cs) := rfl
            rw [h1, h2]
            split <;> omega
          | true =>
            have hkeep := ctrl_keeps_pfx (f + 1) prev (c :: cs) h hb
            rw [hstep] at hkeep
            have hin : occ eocL (c :: cs) = 1 + occ eocL cs := by
              show (if eocL.isPrefixOf (c :: cs) then 1 else 0) + occ eocL cs = 1 + occ eocL cs
              rw [hb]
              simp
            have hout : occ eocL (c :: ctrlGoF f (some c) cs) =
                1 + occ eocL (ctrlGoF f (some c) cs) := by
              show (if eocL.isPrefixOf (c :: ctrlGoF f (some c) cs) then 1 else 0) +
                  occ eocL (ctrlGoF f (some c) cs) =
                  1 + occ eocL (ctrlGoF f (some c) cs)
              rw [hkeep]
              simp
            rw [hin, hout]
            omega

/-- The blank-line scan never loses an occurrence of the end marker:
every deleted range consists of whitespace, at which no occurrence
starts, and the four characters of an occurrence are always copied. -/
theorem blank_occ_ge :
    ∀ fuel (l : List Char) prev, l.length < fuel →
      occ eocL l ≤ occ eocL (blankGoF fuel prev l) := by
  intro fuel
  induction fuel with
  | zero => intro l prev h; omega
  | succ f ih =>
    intro l prev h
    cases l with
    | nil => simp [blankGoF, occ]
    | cons c cs =>
      have hlen : cs.length < f := by simp only [List.length_cons] at h; omega
      have hcopy : blankGoF (f + 1) prev (c :: cs) = c :: blankGoF f (some c) cs →
          occ eocL (c :: cs) ≤ occ eocL (blankGoF (f + 1) prev (c :: cs)) := by
        intro hstep
        have hcs : occ eocL cs ≤ occ eocL (blankGoF f (some c) cs) := ih _ _ hlen
        rw [hstep]
        cases hb : eocL.isPrefixOf (c :: cs) with
        | false =>
          have h1 : occ eocL (c :: cs) = occ eocL cs := by
            show (if eocL.isPrefixOf (c :: cs) then 1 else 0) + occ eocL cs = occ eocL cs
            rw [hb]
            simp
          have h2 : occ eocL (c :: blankGoF f (some c) cs) =
              (if eocL.isPrefixOf (c :: blankGoF f (some c) cs) then 1 else 0) +
                occ eocL (blankGoF f (some c) cs) := rfl
          rw [h1, h2]
          split <;> omega
        | true =>
          have hkeep := blank_keeps_pfx (f + 1) prev (c :: cs) h hb
          rw [hstep] at hkeep
          have hin : occ eocL (c :: cs) = 1 + occ eocL cs := by
            show (if eocL.isPrefixOf (c :: cs) then 1 else 0) + occ eocL cs = 1 + occ eocL cs
            rw [hb]
            simp
          have hout : occ eocL (c :: blankGoF f (some c) cs) =
              1 + occ eocL (blankGoF f (some c) cs) := by
            show (if eocL.isPrefixOf (c :: blankGoF f (some c) cs) then 1 else 0) +
                occ eocL (blankGoF f (some c) cs) =
                1 + occ eocL (blankGoF f (some c) cs)
            rw [hkeep]
            simp
          rw [hin, hout]
          omega
      by_cases ha : anchorOk prev = true
      · cases hm : emptyLineMatchLen (c :: cs) with
        | some k =>
          cases k with
          | zero =>
            exact hcopy (by simp only [blankGoF, ha, if_true, hm])
          | succ k0 =>
            have hstep : blankGoF (f + 1) prev (c :: cs) =
                blankGoF f (some (((c :: cs).take (k0 + 1)).getLastD c)) (cs.drop k0) := by
              simp only [blankGoF, ha, if_true, hm]
            rw [hstep]
            have hdrop : cs.drop k0 = (c :: cs).drop (k0 + 1) := by
              simp [List.drop_succ_cons]
            rw [hdrop]
            rw [occ_drop_of_no_start (k0 + 1) (c :: cs) (blank_no_gt hm)]
            apply ih
            simp only [List.length_drop, List.length_cons]
            omega
        | none =>
          exact hcopy (by simp only [blankGoF, ha, if_true, hm])
      · have haf : anchorOk prev = false := by simpa using ha
        exact hcopy (by simp only [blankGoF, haf, if_false, Bool.false_eq_true])

/-- The earliest-occurrence decomposition realized by replaceFirstL: the
input splits around the first occurrence of the pattern, no earlier
position starts an occurrence, and the replacement deletes exactly that
occurrence. -/
theorem replaceFirst_first_decomp {p : List Char} : ∀ l, containsSub p l = true →
    ∃ u v, l = u ++ p ++ v ∧ (∀ j, j < u.length → p.isPrefixOf (l.drop j) = false) ∧
      replaceFirstL p l = u ++ v := by
  intro l
  induction l with
  | nil =>
    intro h
    simp only [containsSub, List.isEmpty_iff] at h
    subst h
    exact ⟨[], [], rfl, by intro j hj; simp at hj, rfl⟩
  | cons c cs ih =>
    intro h
    by_cases hp : p.isPrefixOf (c :: cs) = true
    · obtain ⟨t, ht⟩ := pfx_decomp hp
      refine ⟨[], t, by simpa using ht, by intro j hj; simp at hj, ?_⟩
      show replaceFirstL p (c :: cs) = [] ++ t
      simp only [replaceFirstL, if_pos hp, List.nil_append]
      rw [ht, List.drop_left]
    · have hpf : p.isPrefixOf (c :: cs) = false := by
        cases hx : p.isPrefixOf (c :: cs) with
        | false => rfl
        | true => exact absurd hx hp
      have hcs : containsSub p cs = true := by
        simp only [containsSub, Bool.or_eq_true] at h
        rcases h with h | h
        · exact absurd h hp
        · exact h
      obtain ⟨u, v, hsplit, hnostart, hrepl⟩ := ih hcs
      refine ⟨c :: u, v, by simp [hsplit], ?_, ?_⟩
      · intro j hj
        cases j with
        | zero => simpa using hpf
        | succ j0 =>
          rw [List.drop_succ_cons]
          exact hnostart j0 (by simp only [List.length_cons] at hj; omega)
      · show replaceFirstL p (c :: cs) = (c :: u) ++ v
        simp only [replaceFirstL, if_neg hp, List.cons_append]
        rw [hrepl]

/-- An occurrence of the end marker at the head of the input contributes
exactly one to the count: the marker does not overlap itself. -/
theorem occ_eoc_head (v : List Char) : occ eocL (eocL ++ v) = 1 + occ eocL v := by
  show occ eocL ('>' :: '>' :: '>' :: ' ' :: v) = 1 + occ eocL v
  simp [occ, pfx_eoc_4, pfx_eoc_3, pfx_eoc_2, pfx_eoc_1]

/-- With the default options the pipeline is exactly strip-marker, then
terminal-control removal, then blank-line removal. -/
theorem postSteps_default (l : List Char) :
    postSteps executeCommandDefaultOptions l = blankScan (ctrlScan (replaceFirstL eocL l)) := rfl

/-- Claim C10: with the default string end marker, the strip-end-marker
step removes exactly the earliest occurrence of the marker (no earlier
position starts one), and every later occurrence survives the remaining
sanitization steps: the occurrence count of the sanitized text drops by at
most one from the raw response, so when the marker occurs more than once
the returned text still contains the marker. -/
theorem claim10_strip_first_only (r : String) (hmany : 2 ≤ occ eocL r.data) :
    (∃ u v, r.data = u ++ eocL ++ v
      ∧ (∀ j, j < u.length → eocL.isPrefixOf (r.data.drop j) = false)
      ∧ replaceFirstL eocL r.data = u ++ v)
    ∧ occ eocL r.data ≤ occ eocL (postSteps executeCommandDefaultOptions r.data) + 1
    ∧ containsSub eocL (postSteps executeCommandDefaultOptions r.data) = true := by
  have hcont : containsSub eocL r.data = true := contains_of_occ_pos (by omega)
  obtain ⟨u, v, hsplit, hnostart, hrepl⟩ := replaceFirst_first_decomp r.data hcont
  have hocc_r : occ eocL r.data = 1 + occ eocL v := by
    have ha : occ eocL r.data = occ eocL (r.data.drop u.length) :=
      occ_drop_of_no_start u.length r.data hnostart
    have hb : r.data.drop u.length = eocL ++ v := by
      rw [hsplit, List.append_assoc, List.drop_left]
    rw [ha, hb, occ_eoc_head]
  have hchain : occ eocL v ≤ occ eocL (postSteps executeCommandDefaultOptions r.data) := by
    rw [postSteps_default, hrepl]
    have s1 : occ eocL v ≤ occ eocL (u ++ v) := occ_append_left_ge eocL u v
    have s2 : occ eocL (u ++ v) ≤ occ eocL (ctrlScan (u ++ v)) :=
      ctrl_occ_ge ((u ++ v).length + 1) (u ++ v) none (by omega)
    have s3 : occ eocL (ctrlScan (u ++ v)) ≤ occ eocL (blankScan (ctrlScan (u ++ v))) :=
      blank_occ_ge ((ctrlScan (u ++ v)).length + 1) (ctrlScan (u ++ v)) none (by omega)
    omega
  refine ⟨⟨u, v, hsplit, hnostart, hrepl⟩, by omega, ?_⟩
  exact contains_of_occ_pos (by omega)

/-- Witness for claim C10 at a concrete response carrying the marker both
inside a data line and as the trailing prompt. -/
theorem claim10_witness :
    2 ≤ occ eocL ("a>>> b>>> " : String).data
    ∧ ((∃ u v, ("a>>> b>>> " : String).data = u ++ eocL ++ v
        ∧ (∀ j, j < u.length →
            eocL.isPrefixOf (("a>>> b>>> " : String).data.drop j) = false)
        ∧ replaceFirstL eocL ("a>>> b>>> " : String).data = u ++ v)
      ∧ occ eocL ("a>>> b>>> " : String).data ≤
          occ eocL (postSteps executeCommandDefaultOptions ("a>>> b>>> " : String).data) + 1
      ∧ containsSub eocL
          (postSteps executeCommandDefaultOptions ("a>>> b>>> " : String).data) = true) :=
  ⟨by decide, claim10_strip_first_only "a>>> b>>> " (by decide)⟩
